import Mathlib

/-!
Verification development for a dice-notation engine.

The embedding models the TypeScript core of the repository:
`src/lib/dice-parser.ts` (DiceParser.parse), `src/lib/dice-roller.ts`
(DiceRoller.rollDiceGroup, rollWithAdvantage), and
`src/services/dice.service.ts` (DiceService.roll), together with the
data models (DiceExpressionModel, RollResultModel, DiceRollModel) and
the error classes (ValidationError, ResourceLimitError).

Modelling conventions:
- JavaScript strings are modelled with Lean `String`/`List Char`; the
  `trim().toLowerCase()` normalisation is modelled on ASCII (the
  grammar involves only digits, the letter d/D, signs and whitespace).
- `parseInt` on a digit run is modelled as the exact natural-number
  value.  JavaScript loses precision above 2^53, but every use in the
  source only compares the value with 0, 1000 or 10000, and rounding a
  digit string of value above 2^53 to a double never crosses those
  thresholds, so the Nat model is observationally faithful.
- `crypto.randomInt(1, sides + 1)` is modelled by an ambient random
  source `rnd : Nat → Nat → Nat` mapping (call index, sides) to the
  drawn value; the contract of the source is the hypothesis
  `1 ≤ rnd k s ∧ rnd k s ≤ s` for `1 ≤ s`.  The call index is threaded
  through the computation in call order.
- Thrown exceptions are modelled with `Except`; the regex `exec` loop
  of the parser is split into a token scan (`scanTokens`, modelling
  the repeated `DICE_PATTERN.exec` calls) followed by token
  processing (`processToks`, modelling the loop body); the regex
  state is unaffected by the loop body, so the split preserves the
  observable behaviour, including which ResourceLimitError (if any)
  escapes.
- The `timestamp` field of DiceRollModel (wall-clock) is omitted: no
  claim concerns it.
-/

namespace Dice

/-- Characters removed by JavaScript `String.prototype.trim`
(ASCII whitespace, NBSP and the BOM). -/
def isJsWhitespace (c : Char) : Bool :=
  c.toNat == 32 || c.toNat == 9 || c.toNat == 10 || c.toNat == 13 ||
  c.toNat == 11 || c.toNat == 12 || c.toNat == 160 || c.toNat == 65279

/-- JavaScript `trim`: drop whitespace at both ends. -/
def jsTrim (cs : List Char) : List Char :=
  ((cs.dropWhile isJsWhitespace).reverse.dropWhile isJsWhitespace).reverse

/-- `expression.trim().toLowerCase()` from `DiceParser.parse`
(`Char.toLower` is exactly the ASCII case map). -/
def normalize (cs : List Char) : List Char :=
  (jsTrim cs).map Char.toLower

/-- Numeric value of a digit run (JavaScript `parseInt(ds, 10)`). -/
def natOfDigits (ds : List Char) : Nat :=
  ds.foldl (fun a c => a * 10 + (c.toNat - 48)) 0

/-- One token produced by the regex
`/(?<count>\d+)d(?<sides>\d+)|(?<modifier>[+-]\d+)/gi`:
either a dice group `{count}d{sides}` or a signed modifier. -/
inductive Tok where
  | group (count sides : Nat)
  | modif (value : Int)
deriving DecidableEq, Repr

/-- Attempt to match the regex at the head of `cs` (the anchored match
the engine attempts at each scan position).  The first alternative
starts with a digit, the second with a sign, so they are mutually
exclusive; each `\d+` is greedy and — because backtracking it would
leave a digit where `d` (or nothing) is required — effectively takes
the maximal digit run. -/
def matchAt (cs : List Char) : Option (Tok × List Char) :=
  match cs with
  | [] => none
  | c :: rest =>
    if c.isDigit then
      let ds := cs.takeWhile Char.isDigit
      match cs.dropWhile Char.isDigit with
      | 'd' :: r2 =>
        let ss := r2.takeWhile Char.isDigit
        if ss.isEmpty then none
        else some (.group (natOfDigits ds) (natOfDigits ss), r2.dropWhile Char.isDigit)
      | _ => none
    else if c == '+' || c == '-' then
      let ds := rest.takeWhile Char.isDigit
      if ds.isEmpty then none
      else
        some (.modif (if c == '+' then (natOfDigits ds : Int) else -(natOfDigits ds : Int)),
          rest.dropWhile Char.isDigit)
    else none

/-- The `while ((match = DICE_PATTERN.exec(trimmed)) !== null)` scan:
find the leftmost match at or after the current position, emit it, and
resume right after it; positions that match nothing are skipped.  The
fuel argument (instantiated with the list length, which every step
strictly decreases) makes the recursion structural. -/
def scanAux : Nat → List Char → List Tok
  | 0, _ => []
  | _, [] => []
  | fuel + 1, c :: rest =>
    match matchAt (c :: rest) with
    | some (t, r) => t :: scanAux fuel r
    | none => scanAux fuel rest

/-- All tokens of the normalised expression, in scan order. -/
def scanTokens (cs : List Char) : List Tok :=
  scanAux cs.length cs

/-- `ValidationError` of `src/types/index.ts`: a field name and a
message. -/
structure ValidationError where
  field : String
  message : String
deriving DecidableEq, Repr

/-- `DiceGroup` of `src/types/index.ts`. -/
structure DiceGroup where
  count : Nat
  sides : Nat
deriving DecidableEq, Repr

/-- `DiceExpressionModel` of `src/models/dice-expression.model.ts`. -/
structure DiceExpressionModel where
  original : String
  diceGroups : List DiceGroup
  modifiers : List Int
  isValid : Bool
  validationErrors : List ValidationError
deriving DecidableEq, Repr

/-- `DiceExpressionModel.createInvalid`. -/
def DiceExpressionModel.createInvalid (original : String)
    (errors : List ValidationError) : DiceExpressionModel :=
  ⟨original, [], [], false, errors⟩

/-- `ResourceLimitError` of `src/middleware/error-handler.ts`
(modelled by its message; it is a distinct thrown exception class). -/
structure ResourceLimitError where
  message : String
deriving DecidableEq, Repr

def MAX_DICE : Nat := 1000

def MAX_SIDES : Nat := 10000

/-- Body of the parser's scan loop, applied to the scanned tokens in
order, threading the accumulated dice groups, modifiers and validation
errors exactly as `DiceParser.parse` does.  For a group token the
source checks `count <= 0` and `sides <= 0` (here: `= 0`, the values
being naturals parsed from digit runs), then throws on the resource
limits, then keeps the group only when both values are positive. -/
def processToks : List Tok → List DiceGroup → List Int → List ValidationError →
    Except ResourceLimitError (List DiceGroup × List Int × List ValidationError)
  | [], gs, ms, es => .ok (gs, ms, es)
  | .group count sides :: rest, gs, ms, es =>
    let es1 := es ++
      (if count = 0 then
        [⟨"count", "Invalid dice count: " ++ toString count ++ ". Must be positive."⟩]
      else []) ++
      (if sides = 0 then
        [⟨"sides", "Invalid die sides: " ++ toString sides ++ ". Must be positive."⟩]
      else [])
    if MAX_DICE < count then
      .error ⟨"Dice count exceeds maximum of " ++ toString MAX_DICE⟩
    else if MAX_SIDES < sides then
      .error ⟨"Die sides exceed maximum of " ++ toString MAX_SIDES⟩
    else
      processToks rest (gs ++ if 0 < count ∧ 0 < sides then [⟨count, sides⟩] else []) ms es1
  | .modif v :: rest, gs, ms, es => processToks rest gs (ms ++ [v]) es

/-- The part of `DiceParser.parse` past the token scan: process the
tokens, then add the missing-dice-group error and decide validity. -/
def assembleFromToks (original : String) (toks : List Tok) :
    Except ResourceLimitError DiceExpressionModel :=
  match processToks toks [] [] [] with
  | .error e => .error e
  | .ok (gs, ms, es) =>
    let es1 := es ++
      (if gs.isEmpty then
        [⟨"expression", "Expression must contain at least one dice group (e.g., 1d6)"⟩]
      else [])
    if es1.isEmpty then .ok ⟨original, gs, ms, true, []⟩
    else .ok (DiceExpressionModel.createInvalid original es1)

/-- `DiceParser.parse` applied to an already-normalised character
list, keeping the raw string only for the `original` field. -/
def parseFrom (original : String) (trimmed : List Char) :
    Except ResourceLimitError DiceExpressionModel :=
  if trimmed.isEmpty then
    .ok (DiceExpressionModel.createInvalid original
      [⟨"expression", "Expression cannot be empty"⟩])
  else
    let toks := scanTokens trimmed
    if toks.isEmpty then
      .ok (DiceExpressionModel.createInvalid original
        [⟨"expression", "Invalid dice notation format"⟩])
    else
      assembleFromToks original toks

/-- `DiceParser.parse` of `src/lib/dice-parser.ts`.  A
`ResourceLimitError` thrown inside the scan loop is the `.error`
case; every other outcome is a returned `DiceExpressionModel`. -/
def DiceParser.parse (expression : String) :
    Except ResourceLimitError DiceExpressionModel :=
  parseFrom expression (normalize expression.data)

/-- `RollResultModel` of `src/models/roll-result.model.ts`.  The field
spelled `nota` here is the source's `notation` field (that word is a
Lean keyword): the reconstructed NdX string. -/
structure RollResultModel where
  nota : String
  rolls : List Nat
  subtotal : Nat
deriving DecidableEq, Repr

/-- `AdvantageMode` of `src/types/index.ts`. -/
inductive AdvantageMode where
  | none
  | advantage
  | disadvantage
deriving DecidableEq, Repr

/-- `DiceRoller.rollDiceGroup` of `src/lib/dice-roller.ts`, with the
ambient `crypto.randomInt` modelled by `rnd` and the call counter `k`:
the loop pushes `randomInt(1, sides + 1)` (that is, a value drawn in
`[1, sides]`) `count` times, then sums with `reduce`.  Returns the
result together with the advanced call counter. -/
def DiceRoller.rollDiceGroup (rnd : Nat → Nat → Nat) (k : Nat) (g : DiceGroup) :
    RollResultModel × Nat :=
  let rolls := (List.range g.count).map (fun i => rnd (k + i) g.sides)
  (⟨toString g.count ++ "d" ++ toString g.sides, rolls, rolls.foldl (· + ·) 0⟩,
    k + g.count)

/-- `DiceRoller.rollWithAdvantage`: two draws of the same group, in
call order (primary first). -/
def DiceRoller.rollWithAdvantage (rnd : Nat → Nat → Nat) (k : Nat) (g : DiceGroup) :
    (RollResultModel × RollResultModel) × Nat :=
  let p := DiceRoller.rollDiceGroup rnd k g
  let a := DiceRoller.rollDiceGroup rnd p.2 g
  ((p.1, a.1), a.2)

/-- `DiceRollModel` of `src/models/dice-roll.model.ts` (the
`timestamp` field is omitted, see the header note). -/
inductive DiceRollModel where
  | mk (expression : String) (results : List RollResultModel)
      (modifiers : List Int) (total : Int) (advantageMode : AdvantageMode)
      (alternateRoll : Option DiceRollModel)
deriving Repr

def DiceRollModel.expression : DiceRollModel → String
  | .mk e _ _ _ _ _ => e

def DiceRollModel.results : DiceRollModel → List RollResultModel
  | .mk _ r _ _ _ _ => r

def DiceRollModel.modifiers : DiceRollModel → List Int
  | .mk _ _ m _ _ _ => m

def DiceRollModel.total : DiceRollModel → Int
  | .mk _ _ _ t _ _ => t

def DiceRollModel.advantageMode : DiceRollModel → AdvantageMode
  | .mk _ _ _ _ a _ => a

def DiceRollModel.alternateRoll : DiceRollModel → Option DiceRollModel
  | .mk _ _ _ _ _ alt => alt

/-- `results.reduce((sum, result) => sum + result.subtotal, 0)` from
`DiceService.roll` (as an integer, the width the totals live at). -/
def subtotalSum (rs : List RollResultModel) : Int :=
  rs.foldl (fun s r => s + (r.subtotal : Int)) 0

/-- `modifiers.reduce((sum, mod) => sum + mod, 0)`. -/
def modSum (ms : List Int) : Int :=
  ms.foldl (· + ·) 0

/-- The two exception kinds `DiceService.roll` can let escape: the
`ValidationError` it throws itself, and the `ResourceLimitError` the
parser throws, which passes through the service unchanged. -/
inductive RollError where
  | validation (message : String)
  | resourceLimit (message : String)
deriving DecidableEq, Repr

/-- The plain-mode `parsed.diceGroups.map((g) => rollDiceGroup(g))`,
with the random-source call counter threaded left to right. -/
def rollGroups (rnd : Nat → Nat → Nat) (k : Nat) :
    List DiceGroup → List RollResultModel × Nat
  | [] => ([], k)
  | g :: gs =>
    let r := DiceRoller.rollDiceGroup rnd k g
    let rs := rollGroups rnd r.2 gs
    (r.1 :: rs.1, rs.2)

/-- `DiceService.roll` of `src/services/dice.service.ts`.  The
advantage branch requires exactly one dice group (a list of length one
is matched as `[diceGroup]`), rolls it twice, adds the modifier sum to
both subtotals, and selects with `>=` (advantage) or `<=`
(disadvantage), so a tie selects the first-rolled candidate; the
non-selected candidate becomes `alternateRoll` of the selected one,
with its own `alternateRoll` left unset. -/
def DiceService.roll (rnd : Nat → Nat → Nat) (expression : String)
    (advantageMode : AdvantageMode) : Except RollError DiceRollModel :=
  match DiceParser.parse expression with
  | .error e => .error (.resourceLimit e.message)
  | .ok parsed =>
    if parsed.isValid = false then
      .error (.validation
        (String.intercalate "; " (parsed.validationErrors.map (fun e => e.message))))
    else if advantageMode ≠ AdvantageMode.none then
      match parsed.diceGroups with
      | [diceGroup] =>
        let pa := DiceRoller.rollWithAdvantage rnd 0 diceGroup
        let primary := pa.1.1
        let alternate := pa.1.2
        let primaryTotal : Int := (primary.subtotal : Int) + modSum parsed.modifiers
        let alternateTotal : Int := (alternate.subtotal : Int) + modSum parsed.modifiers
        if advantageMode = AdvantageMode.advantage then
          if alternateTotal ≤ primaryTotal then
            .ok (.mk expression [primary] parsed.modifiers primaryTotal advantageMode
              (some (.mk expression [alternate] parsed.modifiers alternateTotal
                advantageMode none)))
          else
            .ok (.mk expression [alternate] parsed.modifiers alternateTotal advantageMode
              (some (.mk expression [primary] parsed.modifiers primaryTotal
                advantageMode none)))
        else
          if primaryTotal ≤ alternateTotal then
            .ok (.mk expression [primary] parsed.modifiers primaryTotal advantageMode
              (some (.mk expression [alternate] parsed.modifiers alternateTotal
                advantageMode none)))
          else
            .ok (.mk expression [alternate] parsed.modifiers alternateTotal advantageMode
              (some (.mk expression [primary] parsed.modifiers primaryTotal
                advantageMode none)))
      | _ =>
        .error (.validation
          "Advantage/disadvantage only supports single dice group (e.g., 1d20)")
    else
      let rr := rollGroups rnd 0 parsed.diceGroups
      let total : Int := subtotalSum rr.1 + modSum parsed.modifiers
      .ok (.mk expression rr.1 parsed.modifiers total advantageMode none)

/-- A token that trips the parser's resource limits. -/
def Tok.overLimit : Tok → Prop
  | .group count sides => MAX_DICE < count ∨ MAX_SIDES < sides
  | .modif _ => False

/-- The message of the `ResourceLimitError` the parser throws at an
over-limit group token (the count check comes first in the source). -/
def limitMessage : Tok → String
  | .group count _ =>
    if MAX_DICE < count then "Dice count exceeds maximum of " ++ toString MAX_DICE
    else "Die sides exceed maximum of " ++ toString MAX_SIDES
  | .modif _ => ""

/-- The RollRecord invariant of the spec:
`total == sum(results[].subtotal) + sum(modifiers)`. -/
def totalInvariant (r : DiceRollModel) : Prop :=
  r.total = subtotalSum r.results + modSum r.modifiers

/-- Agreement of two parse outcomes on everything except the
`original` field (the spec's "structurally identical"). -/
def sameCore : Except ResourceLimitError DiceExpressionModel →
    Except ResourceLimitError DiceExpressionModel → Prop
  | .error a, .error b => a = b
  | .ok a, .ok b => a.diceGroups = b.diceGroups ∧ a.modifiers = b.modifiers ∧
      a.isValid = b.isValid ∧ a.validationErrors = b.validationErrors
  | _, _ => False

/-- C1: the claim says rolling `"2d6+1d4+3"` in plain mode yields two
entries in `results` (`"2d6"` then `"1d4"`) and `modifiers = [3]`.
The code does not: the regex scan reaches the `+` before `1d4` and the
modifier alternative consumes `+1` there (the leftmost match wins), so
`d4` is left unmatched and the parse yields one dice group `2d6` with
modifiers `[1, 3]`.  Evaluated here with the random source constantly
drawing 1: the roll record has a single result entry and
modifiers `[1, 3]`, contradicting the claim. -/
theorem C1_compound_roll_divergence :
    DiceService.roll (fun _ _ => 1) "2d6+1d4+3" AdvantageMode.none =
      .ok (.mk "2d6+1d4+3" [⟨"2d6", [1, 1], 2⟩] [1, 3] 6 AdvantageMode.none none) ∧
    ¬ ([(1 : Int), 3] = [3]) := by
  exact ⟨rfl, by decide⟩

/-- C2: the claim says inserting whitespace between tokens never
changes `diceGroups` or `modifiers`.  It does: `"2d6+1d4"` parses to
one group and modifiers `[1]` (the scan consumes `+1` as a modifier),
while `"2d6 + 1d4"` parses to two groups and no modifiers (the space
stops `+` from matching, so `1d4` is then matched as a group). -/
theorem C2_whitespace_divergence :
    DiceParser.parse "2d6+1d4" = .ok ⟨"2d6+1d4", [⟨2, 6⟩], [1], true, []⟩ ∧
    DiceParser.parse "2d6 + 1d4" = .ok ⟨"2d6 + 1d4", [⟨2, 6⟩, ⟨1, 4⟩], [], true, []⟩ ∧
    ¬ ([(1 : Int)] = []) := by
  exact ⟨rfl, rfl, by decide⟩

/-- C6: the claim says advantage on `"2d6+1d4+3"` (two dice groups)
raises a ValidationError.  In the code that expression parses to a
single dice group (see C1), so the single-group check passes and the
advantage roll succeeds — no error of any kind is raised.  Evaluated
with the random source constantly drawing 1 (the tie keeps the
first-rolled candidate on top). -/
theorem C6_advantage_compound_no_error :
    DiceService.roll (fun _ _ => 1) "2d6+1d4+3" AdvantageMode.advantage =
      .ok (.mk "2d6+1d4+3" [⟨"2d6", [1, 1], 2⟩] [1, 3] 6 AdvantageMode.advantage
        (some (.mk "2d6+1d4+3" [⟨"2d6", [1, 1], 2⟩] [1, 3] 6
          AdvantageMode.advantage none))) := by
  rfl

/-- C7 counterexample: `"+12000d6"` contains the dice-group token
`12000d6` (the regex matches it at offset 1) with count 12000 > 1000,
yet `parse` raises no ResourceLimitError: the scan consumes `+12000`
as a modifier first, never reaches the group token, and returns an
ordinary invalid expression. -/
theorem C7_counterexample :
    (∃ i rest, matchAt (((normalize ("+12000d6".data))).drop i) =
        some (Tok.group 12000 6, rest) ∧ MAX_DICE < 12000) ∧
    DiceParser.parse "+12000d6" =
      .ok (DiceExpressionModel.createInvalid "+12000d6"
        [⟨"expression", "Expression must contain at least one dice group (e.g., 1d6)"⟩]) := by
  exact ⟨⟨1, [], by decide, by decide⟩, rfl⟩

/-- C8 counterexample: `"2d1"` is marked valid by the parser and its
dice group has `sides = 1`, violating the claimed data-model invariant
`2 ≤ sides`. -/
theorem C8_counterexample :
    DiceParser.parse "2d1" = .ok ⟨"2d1", [⟨2, 1⟩], [], true, []⟩ ∧
    ¬ (2 ≤ (1 : Nat)) := by
  exact ⟨rfl, by decide⟩

/-- C3: for every dice group with positive count and sides, and every
random source honouring the `randomInt(1, sides + 1)` contract,
`rollDiceGroup` returns exactly `count` rolls, each in `[1, sides]`,
a subtotal equal to their exact sum, the reconstructed notation string
`"{count}d{sides}"` (built from the numbers, hence independent of the
original expression's capitalisation), and for `sides = 1` every roll
is 1. -/
theorem C3_rollDiceGroup_spec (rnd : Nat → Nat → Nat) (k : Nat) (g : DiceGroup)
    (hrnd : ∀ i s, 1 ≤ s → 1 ≤ rnd i s ∧ rnd i s ≤ s)
    (_hcount : 1 ≤ g.count) (hsides : 1 ≤ g.sides) :
    ((DiceRoller.rollDiceGroup rnd k g).1.rolls.length = g.count) ∧
    (∀ v ∈ (DiceRoller.rollDiceGroup rnd k g).1.rolls, 1 ≤ v ∧ v ≤ g.sides) ∧
    ((DiceRoller.rollDiceGroup rnd k g).1.subtotal =
      (DiceRoller.rollDiceGroup rnd k g).1.rolls.sum) ∧
    ((DiceRoller.rollDiceGroup rnd k g).1.nota =
      toString g.count ++ "d" ++ toString g.sides) ∧
    (g.sides = 1 → ∀ v ∈ (DiceRoller.rollDiceGroup rnd k g).1.rolls, v = 1) := by
  refine ⟨?_, ?_, ?_, rfl, ?_⟩
  · simp [DiceRoller.rollDiceGroup]
  · intro v hv
    simp only [DiceRoller.rollDiceGroup, List.mem_map, List.mem_range] at hv
    obtain ⟨i, -, rfl⟩ := hv
    exact hrnd (k + i) g.sides hsides
  · simp [DiceRoller.rollDiceGroup, List.sum_eq_foldl]
  · intro h1 v hv
    simp only [DiceRoller.rollDiceGroup, List.mem_map, List.mem_range] at hv
    obtain ⟨i, -, rfl⟩ := hv
    have h := hrnd (k + i) g.sides hsides
    omega

/-- Witness for C3 at the group `2d6`, call counter 0, and the random
source that always draws the maximum. -/
theorem C3_rollDiceGroup_spec_witness :
    ((DiceRoller.rollDiceGroup (fun _ s => s) 0 ⟨2, 6⟩).1.rolls.length = 2) ∧
    (∀ v ∈ (DiceRoller.rollDiceGroup (fun _ s => s) 0 ⟨2, 6⟩).1.rolls, 1 ≤ v ∧ v ≤ 6) ∧
    ((DiceRoller.rollDiceGroup (fun _ s => s) 0 ⟨2, 6⟩).1.subtotal =
      (DiceRoller.rollDiceGroup (fun _ s => s) 0 ⟨2, 6⟩).1.rolls.sum) ∧
    ((DiceRoller.rollDiceGroup (fun _ s => s) 0 ⟨2, 6⟩).1.nota = "2" ++ "d" ++ "6") ∧
    ((6 : Nat) = 1 → ∀ v ∈ (DiceRoller.rollDiceGroup (fun _ s => s) 0 ⟨2, 6⟩).1.rolls, v = 1) :=
  C3_rollDiceGroup_spec (fun _ s => s) 0 ⟨2, 6⟩
    (fun _ s hs => ⟨hs, Nat.le_refl s⟩) (by decide) (by decide)

lemma subtotalSum_singleton (x : RollResultModel) :
    subtotalSum [x] = (x.subtotal : Int) := by
  simp [subtotalSum]

/-- C4: every roll record the service returns satisfies
`total = sum(results[].subtotal) + sum(modifiers)`, and so does the
nested alternate record when present (which itself carries no further
alternate). -/
theorem C4_total_invariant (rnd : Nat → Nat → Nat) (s : String)
    (mode : AdvantageMode) (r : DiceRollModel)
    (h : DiceService.roll rnd s mode = .ok r) :
    totalInvariant r ∧
      ∀ a, r.alternateRoll = some a → totalInvariant a ∧ a.alternateRoll = none := by
  unfold DiceService.roll at h
  cases hp : DiceParser.parse s with
  | error e => rw [hp] at h; exact absurd h (by simp)
  | ok parsed =>
    rw [hp] at h
    dsimp only at h
    split at h
    · exact absurd h (by simp)
    · split at h
      · split at h
        · split at h <;> split at h <;>
          · injection h with h2
            subst h2
            refine ⟨?_, ?_⟩
            · simp [totalInvariant, DiceRollModel.total, DiceRollModel.results,
                DiceRollModel.modifiers, subtotalSum_singleton]
            · intro a ha
              injection ha with ha2
              subst ha2
              refine ⟨?_, rfl⟩
              simp [totalInvariant, DiceRollModel.total, DiceRollModel.results,
                DiceRollModel.modifiers, subtotalSum_singleton]
        · exact absurd h (by simp)
      · injection h with h2
        subst h2
        refine ⟨rfl, ?_⟩
        intro a ha
        exact Option.noConfusion ha

/-- Witness for C4: a plain `2d6` roll with a source constantly
drawing 1. -/
theorem C4_total_invariant_witness :
    totalInvariant (.mk "2d6" [⟨"2d6", [1, 1], 2⟩] [] 2 AdvantageMode.none none) ∧
    ∀ a, (DiceRollModel.mk "2d6" [⟨"2d6", [1, 1], 2⟩] [] 2
        AdvantageMode.none none).alternateRoll = some a →
      totalInvariant a ∧ a.alternateRoll = none :=
  C4_total_invariant (fun _ _ => 1) "2d6" AdvantageMode.none _ (by rfl)

/-- C5: on a valid expression with exactly one dice group, advantage
and disadvantage roll the group twice (the first-rolled candidate
draws at call indices starting at 0, the second continues right after
it, two independent sequences of draws), add the same modifier sum to
both candidates' subtotals, select the candidate with the larger
(advantage) respectively smaller (disadvantage) total as the top-level
record — a tie selecting the first-rolled candidate in both modes —
and attach the non-selected candidate as `alternateRoll`, whose own
`alternateRoll` is unset. -/
theorem C5_advantage_disadvantage_selection (rnd : Nat → Nat → Nat) (s : String)
    (e : DiceExpressionModel) (g : DiceGroup)
    (hparse : DiceParser.parse s = .ok e) (hvalid : e.isValid = true)
    (hone : e.diceGroups = [g]) :
    let p := DiceRoller.rollDiceGroup rnd 0 g
    let a := DiceRoller.rollDiceGroup rnd p.2 g
    let pT : Int := (p.1.subtotal : Int) + modSum e.modifiers
    let aT : Int := (a.1.subtotal : Int) + modSum e.modifiers
    (aT ≤ pT → DiceService.roll rnd s AdvantageMode.advantage =
      .ok (.mk s [p.1] e.modifiers pT AdvantageMode.advantage
        (some (.mk s [a.1] e.modifiers aT AdvantageMode.advantage none)))) ∧
    (pT < aT → DiceService.roll rnd s AdvantageMode.advantage =
      .ok (.mk s [a.1] e.modifiers aT AdvantageMode.advantage
        (some (.mk s [p.1] e.modifiers pT AdvantageMode.advantage none)))) ∧
    (pT ≤ aT → DiceService.roll rnd s AdvantageMode.disadvantage =
      .ok (.mk s [p.1] e.modifiers pT AdvantageMode.disadvantage
        (some (.mk s [a.1] e.modifiers aT AdvantageMode.disadvantage none)))) ∧
    (aT < pT → DiceService.roll rnd s AdvantageMode.disadvantage =
      .ok (.mk s [a.1] e.modifiers aT AdvantageMode.disadvantage
        (some (.mk s [p.1] e.modifiers pT AdvantageMode.disadvantage none)))) := by
  intro p a pT aT
  have hroll : ∀ mode, mode ≠ AdvantageMode.none →
      DiceService.roll rnd s mode =
        if mode = AdvantageMode.advantage then
          if aT ≤ pT then
            .ok (.mk s [p.1] e.modifiers pT mode
              (some (.mk s [a.1] e.modifiers aT mode none)))
          else
            .ok (.mk s [a.1] e.modifiers aT mode
              (some (.mk s [p.1] e.modifiers pT mode none)))
        else
          if pT ≤ aT then
            .ok (.mk s [p.1] e.modifiers pT mode
              (some (.mk s [a.1] e.modifiers aT mode none)))
          else
            .ok (.mk s [a.1] e.modifiers aT mode
              (some (.mk s [p.1] e.modifiers pT mode none))) := by
    intro mode hmode
    unfold DiceService.roll
    rw [hparse]
    dsimp only
    rw [hvalid, hone]
    rw [if_neg (by decide : ¬ ((true : Bool) = false)), if_pos hmode]
    rfl
  refine ⟨?_, ?_, ?_, ?_⟩
  · intro hle
    rw [hroll AdvantageMode.advantage (by decide)]
    simp [if_pos hle]
  · intro hlt
    rw [hroll AdvantageMode.advantage (by decide)]
    simp [if_neg (not_le.mpr hlt)]
  · intro hle
    rw [hroll AdvantageMode.disadvantage (by decide)]
    simp [if_pos hle]
  · intro hlt
    rw [hroll AdvantageMode.disadvantage (by decide)]
    simp [if_neg (not_le.mpr hlt)]

/-- Witness for C5: advantage on `"1d20"` with the source drawing
`k + 1` at call index `k`, so the first candidate rolls 1 and the
second rolls 2; the second (larger) candidate is selected and the
first becomes the alternate. -/
theorem C5_advantage_disadvantage_selection_witness :
    DiceService.roll (fun k _ => k + 1) "1d20" AdvantageMode.advantage =
      .ok (.mk "1d20" [⟨"1d20", [2], 2⟩] [] 2 AdvantageMode.advantage
        (some (.mk "1d20" [⟨"1d20", [1], 1⟩] [] 1 AdvantageMode.advantage none))) :=
  (C5_advantage_disadvantage_selection (fun k _ => k + 1) "1d20"
    ⟨"1d20", [⟨1, 20⟩], [], true, []⟩ ⟨1, 20⟩ (by rfl) rfl rfl).2.1 (by decide)

lemma processToks_error_at (pre : List Tok) :
    ∀ (t : Tok) (post : List Tok) gs ms es, t.overLimit → (∀ x ∈ pre, ¬ x.overLimit) →
      processToks (pre ++ t :: post) gs ms es = .error ⟨limitMessage t⟩ := by
  induction pre with
  | nil =>
    intro t post gs ms es hover _
    cases t with
    | modif v => exact absurd hover (by simp [Tok.overLimit])
    | group c sd =>
      simp only [List.nil_append, processToks]
      by_cases hc : MAX_DICE < c
      · rw [if_pos hc]
        simp [limitMessage, hc]
      · have hs : MAX_SIDES < sd := by
          rcases hover with h | h
          · exact absurd h hc
          · exact h
        rw [if_neg hc, if_pos hs]
        simp [limitMessage, hc]
  | cons x pre ih =>
    intro t post gs ms es hover hpre
    have hx : ¬ x.overLimit := hpre x (by simp)
    have hpre2 : ∀ y ∈ pre, ¬ y.overLimit := fun y hy => hpre y (by simp [hy])
    cases x with
    | modif v =>
      simpa only [List.cons_append, processToks] using ih t post gs (ms ++ [v]) es hover hpre2
    | group c sd =>
      have hc : ¬ MAX_DICE < c := fun h => hx (Or.inl h)
      have hs : ¬ MAX_SIDES < sd := fun h => hx (Or.inr h)
      simp only [List.cons_append, processToks]
      rw [if_neg hc, if_neg hs]
      exact ih t post _ ms _ hover hpre2

/-- C7 (amended): whenever the parser's token scan of the normalised
input yields a dice-group token with count > 1000 or sides > 10000,
and no earlier scanned token trips a limit, `parse` throws a
`ResourceLimitError` — a failure kind distinct from an invalid
`DiceExpressionModel` — whose message is determined by that token
alone; the tokens after it (`post`) never influence the outcome, so
the error is raised immediately at the offending token.  (As stated
over substrings the claim fails, see the counterexample: a preceding
sign can make the scan consume the token's count digits as a modifier,
so the offending group token is never scanned.) -/
theorem C7_amended_resource_limit (s : String) (pre post : List Tok) (t : Tok)
    (hscan : scanTokens (normalize s.data) = pre ++ t :: post)
    (hover : t.overLimit) (hpre : ∀ x ∈ pre, ¬ x.overLimit) :
    DiceParser.parse s = .error ⟨limitMessage t⟩ := by
  unfold DiceParser.parse parseFrom
  have hne : ¬ ((normalize s.data).isEmpty = true) := by
    intro h
    rw [List.isEmpty_iff] at h
    rw [h] at hscan
    have : (id [] : List Tok) = pre ++ t :: post := hscan
    exact absurd this.symm (by simp)
  rw [if_neg hne]
  have htoks : ¬ ((scanTokens (normalize s.data)).isEmpty = true) := by
    rw [hscan]
    simp
  rw [if_neg htoks]
  unfold assembleFromToks
  rw [hscan, processToks_error_at pre t post [] [] [] hover hpre]

/-- Witness for C7 (amended): `parse "10000d10000"` throws the
count-limit ResourceLimitError. -/
theorem C7_amended_resource_limit_witness :
    DiceParser.parse "10000d10000" = .error ⟨limitMessage (.group 10000 10000)⟩ :=
  C7_amended_resource_limit "10000d10000" [] [] (.group 10000 10000)
    (by rfl) (Or.inl (by decide)) (by simp)

lemma processToks_groups_bounded (toks : List Tok) :
    ∀ gs0 ms es gs1 ms1 es1, processToks toks gs0 ms es = .ok (gs1, ms1, es1) →
      ∀ g ∈ gs1, g ∈ gs0 ∨
        (1 ≤ g.count ∧ g.count ≤ MAX_DICE ∧ 1 ≤ g.sides ∧ g.sides ≤ MAX_SIDES) := by
  induction toks with
  | nil =>
    intro gs0 ms es gs1 ms1 es1 h g hg
    simp only [processToks, Except.ok.injEq, Prod.mk.injEq] at h
    obtain ⟨rfl, -, -⟩ := h
    exact Or.inl hg
  | cons x rest ih =>
    intro gs0 ms es gs1 ms1 es1 h g hg
    cases x with
    | modif v => exact ih _ _ _ _ _ _ h g hg
    | group c sd =>
      simp only [processToks] at h
      split at h
      · exact absurd h (by simp)
      · split at h
        · exact absurd h (by simp)
        · rename_i hc hs
          rcases ih _ _ _ _ _ _ h g hg with hin | hb
          · rw [List.mem_append] at hin
            rcases hin with h0 | hnew
            · exact Or.inl h0
            · right
              split at hnew
              · rename_i hpos
                simp only [List.mem_singleton] at hnew
                subst hnew
                refine ⟨hpos.1, ?_, hpos.2, ?_⟩
                · show c ≤ MAX_DICE
                  omega
                · show sd ≤ MAX_SIDES
                  omega
              · exact absurd hnew (by simp)
          · exact Or.inr hb

/-- C8 (amended): every dice group of an expression the parser marks
valid satisfies `1 ≤ count ≤ 1000` and `1 ≤ sides ≤ 10000`.  (The
claimed lower bound `2 ≤ sides` fails: the parser accepts one-sided
dice, see the counterexample.) -/
theorem C8_amended_group_bounds (s : String) (e : DiceExpressionModel)
    (hp : DiceParser.parse s = .ok e) (_hv : e.isValid = true) :
    ∀ g ∈ e.diceGroups, 1 ≤ g.count ∧ g.count ≤ 1000 ∧ 1 ≤ g.sides ∧ g.sides ≤ 10000 := by
  unfold DiceParser.parse parseFrom at hp
  split at hp
  · injection hp with hp2
    subst hp2
    intro g hg
    exact absurd hg (by simp [DiceExpressionModel.createInvalid])
  · dsimp only at hp
    split at hp
    · injection hp with hp2
      subst hp2
      intro g hg
      exact absurd hg (by simp [DiceExpressionModel.createInvalid])
    · unfold assembleFromToks at hp
      cases hq : processToks (scanTokens (normalize s.data)) [] [] [] with
      | error err => rw [hq] at hp; exact absurd hp (by simp)
      | ok r =>
        obtain ⟨gs, ms, es⟩ := r
        rw [hq] at hp
        have hb := processToks_groups_bounded _ _ _ _ _ _ _ hq
        dsimp only at hp
        split at hp
        · split at hp
          · injection hp with hp2
            subst hp2
            intro g hg
            rcases hb g hg with h0 | hbd
            · exact absurd h0 (by simp)
            · exact hbd
          · injection hp with hp2
            subst hp2
            intro g hg
            exact absurd hg (by simp [DiceExpressionModel.createInvalid])
        · split at hp
          · injection hp with hp2
            subst hp2
            intro g hg
            rcases hb g hg with h0 | hbd
            · exact absurd h0 (by simp)
            · exact hbd
          · injection hp with hp2
            subst hp2
            intro g hg
            exact absurd hg (by simp [DiceExpressionModel.createInvalid])

/-- Witness for C8 (amended) at the valid parse of `"2d6"`. -/
theorem C8_amended_group_bounds_witness :
    1 ≤ (2 : Nat) ∧ (2 : Nat) ≤ 1000 ∧ 1 ≤ (6 : Nat) ∧ (6 : Nat) ≤ 10000 :=
  C8_amended_group_bounds "2d6" ⟨"2d6", [⟨2, 6⟩], [], true, []⟩ (by rfl) rfl
    ⟨2, 6⟩ (by simp)

lemma sameCore_assembleFromToks (o1 o2 : String) (toks : List Tok) :
    sameCore (assembleFromToks o1 toks) (assembleFromToks o2 toks) := by
  unfold assembleFromToks
  cases processToks toks [] [] [] with
  | error e => exact rfl
  | ok r =>
    obtain ⟨gs, ms, es⟩ := r
    dsimp only
    split <;> split <;> exact ⟨rfl, rfl, rfl, rfl⟩

lemma sameCore_parseFrom (o1 o2 : String) (cs : List Char) :
    sameCore (parseFrom o1 cs) (parseFrom o2 cs) := by
  unfold parseFrom
  split
  · exact ⟨rfl, rfl, rfl, rfl⟩
  · dsimp only
    split
    · exact ⟨rfl, rfl, rfl, rfl⟩
    · exact sameCore_assembleFromToks o1 o2 _

/-- C9: parsing depends only on the trimmed, lower-cased form of the
input — any two inputs with the same normalised form (in particular
any two differing only in letter case or surrounding whitespace) parse
to the same dice groups, modifiers, validity and errors, differing at
most in `original`; concretely, `"2d6"`, `"2D6"` and `" 2d6 "` agree
that way. -/
theorem C9_case_whitespace_invariance :
    (∀ s t : String, normalize s.data = normalize t.data →
      sameCore (DiceParser.parse s) (DiceParser.parse t)) ∧
    sameCore (DiceParser.parse "2d6") (DiceParser.parse "2D6") ∧
    sameCore (DiceParser.parse "2d6") (DiceParser.parse " 2d6 ") := by
  have key : ∀ s t : String, normalize s.data = normalize t.data →
      sameCore (DiceParser.parse s) (DiceParser.parse t) := by
    intro s t h
    unfold DiceParser.parse
    rw [h]
    exact sameCore_parseFrom s t _
  exact ⟨key, key "2d6" "2D6" (by decide), key "2d6" " 2d6 " (by decide)⟩

/-- Witness for C9: the general invariance applied to `" 2D6"` and
`"2d6"`, whose normalised forms coincide. -/
theorem C9_case_whitespace_invariance_witness :
    sameCore (DiceParser.parse " 2D6") (DiceParser.parse "2d6") :=
  C9_case_whitespace_invariance.1 " 2D6" "2d6" (by decide)

lemma scanAux_ne_nil (cs : List Char) :
    ∀ fuel, cs.length ≤ fuel →
      (∃ i t r, matchAt (cs.drop i) = some (t, r)) → scanAux fuel cs ≠ [] := by
  induction cs with
  | nil =>
    intro fuel _ hex
    obtain ⟨i, t, r, h⟩ := hex
    rw [List.drop_nil] at h
    exact absurd h (by simp [matchAt])
  | cons c rest ih =>
    intro fuel hf hex
    obtain ⟨i, t, r, h⟩ := hex
    cases fuel with
    | zero => simp at hf
    | succ f =>
      cases hm : matchAt (c :: rest) with
      | some p => simp [scanAux, hm]
      | none =>
        simp only [scanAux, hm]
        apply ih f (by simpa using Nat.le_of_succ_le_succ hf)
        cases i with
        | zero =>
          rw [List.drop_zero, hm] at h
          exact absurd h (by simp)
        | succ j =>
          exact ⟨j, t, r, by simpa using h⟩

/-- C10: whenever some position of the normalised input matches a
dice-group or modifier token, the scan finds at least one token, and
the parse outcome is fully determined by the scanned token list (the
`assembleFromToks` stage) — the unmatched characters between and
around tokens contribute nothing, no error is recorded for them; in
particular `"2d6xyz"` parses as valid with the single group 2d6 and
no modifiers, the trailing `xyz` silently ignored. -/
theorem C10_unmatched_characters_ignored :
    (∀ s : String, (∃ i t r, matchAt ((normalize s.data).drop i) = some (t, r)) →
      scanTokens (normalize s.data) ≠ [] ∧
      DiceParser.parse s = assembleFromToks s (scanTokens (normalize s.data))) ∧
    DiceParser.parse "2d6xyz" = .ok ⟨"2d6xyz", [⟨2, 6⟩], [], true, []⟩ := by
  constructor
  · intro s hex
    have hscan : scanTokens (normalize s.data) ≠ [] :=
      scanAux_ne_nil (normalize s.data) _ (Nat.le_refl _) hex
    have hne : ¬ ((normalize s.data).isEmpty = true) := by
      intro h
      rw [List.isEmpty_iff] at h
      apply hscan
      rw [h]
      rfl
    refine ⟨hscan, ?_⟩
    unfold DiceParser.parse parseFrom
    rw [if_neg hne]
    dsimp only
    rw [if_neg (by simpa using hscan)]
  · rfl

/-- Witness for C10: the hypothesis holds for `"2d6xyz"` — the token
`2d6` matches at offset 0 — so the scan is non-empty and the parse is
the token-only assembly. -/
theorem C10_unmatched_characters_ignored_witness :
    scanTokens (normalize "2d6xyz".data) ≠ [] ∧
    DiceParser.parse "2d6xyz" =
      assembleFromToks "2d6xyz" (scanTokens (normalize "2d6xyz".data)) :=
  C10_unmatched_characters_ignored.1 "2d6xyz"
    ⟨0, Tok.group 2 6, ['x', 'y', 'z'], by rfl⟩

end Dice
